import Mathlib

/-!
Shallow embedding of the csvx validation library (`src/lib.rs`, `src/regexes.rs`,
`src/err.rs`).

Strings are modelled as `List Char`. CSV input is modelled at the level the
library sees it after the csv crate has decoded it: a file is a list of records,
each record a list of fields. I/O errors and csv-layer decoding errors are
outside the model (the claims under study concern already-decoded records).

The anchored regular expressions used by the library are hand-translated into
decidable matchers; each translation is justified next to its definition.
-/

deriving instance DecidableEq for Except

namespace Csvx

def str (s : String) : List Char := s.toList

/-- `[a-z]` (ASCII, as in the Rust regex crate's literal class). -/
def isLowerAZ (c : Char) : Bool := 'a' ≤ c && c ≤ 'z'

/-- `[A-Z]`. -/
def isUpperAZ (c : Char) : Bool := 'A' ≤ c && c ≤ 'Z'

/-- `[0-9]`.  The Rust regex `\d` is Unicode-aware, but every use in this
library immediately re-parses the matched digits with a `FromStr`
implementation that accepts ASCII digits only (non-ASCII digits would panic in
`cap`); the claims quantify over the ASCII-digit grammar, so `\d` is modelled
as ASCII. -/
def isDigitC (c : Char) : Bool := '0' ≤ c && c ≤ '9'

/-- Numeric value of a digit string, as computed by Rust's `FromStr` for
unsigned content (used on regex-guarded captures). -/
def digitsVal (l : List Char) : Nat := l.foldl (fun a c => a * 10 + (c.toNat - 48)) 0

/-! ## Calendar model (chrono's `NaiveDate` / `NaiveTime` / `NaiveDateTime`)

Only the constructors the library calls are modelled: `from_ymd_opt`,
`from_hms_opt`, `and_hms_opt`.  chrono's year bounds (±262143) are omitted:
every year reaching these constructors comes from a 4-digit capture and is in
range. -/

structure NaiveDate where
  year : Int
  month : Nat
  day : Nat
deriving DecidableEq, Repr

structure NaiveTime where
  hour : Nat
  minute : Nat
  second : Nat
deriving DecidableEq, Repr

structure NaiveDateTime where
  date : NaiveDate
  time : NaiveTime
deriving DecidableEq, Repr

/-- Proleptic-Gregorian leap year rule, as in chrono. -/
def isLeapYear (y : Int) : Bool := y % 4 == 0 && (y % 100 != 0 || y % 400 == 0)

def daysInMonth (y : Int) (m : Nat) : Nat :=
  if m = 1 then 31
  else if m = 2 then (if isLeapYear y then 29 else 28)
  else if m = 3 then 31
  else if m = 4 then 30
  else if m = 5 then 31
  else if m = 6 then 30
  else if m = 7 then 31
  else if m = 8 then 31
  else if m = 9 then 30
  else if m = 10 then 31
  else if m = 11 then 30
  else if m = 12 then 31
  else 0

def NaiveDate.from_ymd_opt (y : Int) (m d : Nat) : Option NaiveDate :=
  if 1 ≤ m ∧ m ≤ 12 ∧ 1 ≤ d ∧ d ≤ daysInMonth y m then some ⟨y, m, d⟩ else none

def NaiveTime.from_hms_opt (h m s : Nat) : Option NaiveTime :=
  if h ≤ 23 ∧ m ≤ 59 ∧ s ≤ 59 then some ⟨h, m, s⟩ else none

def NaiveDate.and_hms_opt (d : NaiveDate) (h m s : Nat) : Option NaiveDateTime :=
  (NaiveTime.from_hms_opt h m s).map (fun t => ⟨d, t⟩)

/-! ## Error model (`src/err.rs`) -/

inductive ColumnConstraintsError where
  | malformedConstraints (raw : List Char)
  | unknownConstraint (raw : List Char)
deriving DecidableEq, Repr

inductive ColumnTypeError where
  | unknownType (raw : List Char)
  | badEnum (raw : List Char)
deriving DecidableEq, Repr

inductive ValueError where
  | nonNullable
  | invalidBool (raw : List Char)
  | invalidInt (raw : List Char)
  | invalidEnum (raw : List Char) (variants : List (List Char))
  | invalidDecimal (raw : List Char)
  | invalidDate (raw : List Char)
  | invalidDateTime (raw : List Char)
  | invalidTime (raw : List Char)
deriving DecidableEq, Repr

inductive SchemaLoadError where
  | missingHeader
  | badHeader
  | badIdentifier (id : List Char)
  | badType (e : ColumnTypeError)
  | badConstraints (e : ColumnConstraintsError)
deriving DecidableEq, Repr

inductive ValidationError where
  | missingHeaders
  | headerMismatch (actual : List Char)
  | valueError (e : ValueError)
deriving DecidableEq, Repr

inductive Location where
  | fileLineField (file : List Char) (line : Nat) (field : Nat)
  | fileLine (file : List Char) (line : Nat)
  | file (file : List Char)
  | unspecified
deriving DecidableEq, Repr

structure ErrorAtLocation (E L : Type) where
  error : E
  location : L
deriving DecidableEq, Repr

/-! ## Data model (`src/lib.rs`) -/

structure CsvxMetadata where
  table_name : List Char
  date : NaiveDate
  schema : List Char
deriving DecidableEq, Repr

inductive ColumnType where
  | string
  | bool
  | integer
  | enum (variants : List (List Char))
  | decimal
  | date
  | dateTime
  | time
deriving DecidableEq, Repr

/-- Rust's `Vec::join(",")` on the enum variants. -/
def joinComma : List (List Char) → List Char
  | [] => []
  | [v] => v
  | v :: vs => v ++ ',' :: joinComma vs

/-- `impl fmt::Display for ColumnType`. -/
def ColumnType.display : ColumnType → List Char
  | .string => str "STRING"
  | .bool => str "BOOL"
  | .integer => str "INTEGER"
  | .enum variants => str "ENUM(" ++ joinComma variants ++ str ")"
  | .decimal => str "DECIMAL"
  | .date => str "DATE"
  | .dateTime => str "DATETIME"
  | .time => str "TIME"

structure ColumnConstraints where
  nullable : Bool
  unique : Bool
deriving DecidableEq, Repr

structure CsvxColumnType where
  id : List Char
  ty : ColumnType
  constraints : ColumnConstraints
  description : List Char
deriving DecidableEq, Repr

inductive Value where
  | string (s : List Char)
  | bool (b : Bool)
  | integer (i : Int)
  | enum (ordinal : Nat)
  | decimal (d : List Char)
  | date (d : NaiveDate)
  | dateTime (dt : NaiveDateTime)
  | time (t : NaiveTime)
deriving DecidableEq, Repr

/-! ## Value parsing helpers -/

/-- Rust's `str::parse::<i64>` digit loop after the sign has been stripped:
fails on an empty or non-digit string, otherwise accumulates the value. -/
def digitsAcc (acc : Nat) : List Char → Option Nat
  | [] => some acc
  | c :: cs => if isDigitC c then digitsAcc (acc * 10 + (c.toNat - 48)) cs else none

def parseDigitsNat : List Char → Option Nat
  | [] => none
  | c :: cs => digitsAcc 0 (c :: cs)

/-- Rust's `str::parse::<i64>`: optional leading `+` or `-`, then one or more
ASCII digits, and the resulting value must be representable in a signed 64-bit
integer. -/
def parseI64 : List Char → Option Int
  | [] => none
  | c :: cs =>
    if c = '+' then
      (parseDigitsNat cs).bind (fun n => if n ≤ 2 ^ 63 - 1 then some (Int.ofNat n) else none)
    else if c = '-' then
      (parseDigitsNat cs).bind (fun n => if n ≤ 2 ^ 63 then some (-(Int.ofNat n)) else none)
    else
      (parseDigitsNat (c :: cs)).bind (fun n => if n ≤ 2 ^ 63 - 1 then some (Int.ofNat n) else none)

/-- `DECIMAL_RE = ^\d+(?:\.\d+)?$`; the split between integral part and
fractional part at the first non-digit is forced, so a maximal-munch scan is
an exact translation. -/
def decimalFrac : List Char → Bool
  | '.' :: ds2 => !ds2.isEmpty && ds2.all isDigitC
  | _ => false

def decimalMatch (l : List Char) : Bool :=
  let p := l.span isDigitC
  !p.1.isEmpty && (p.2.isEmpty || decimalFrac p.2)

/-- `DATE_RE = ^(\d{4})(\d{2})(\d{2})$` with its three captures; the grammar is
fixed-width, so matching is exactly "8 characters, all digits". -/
def dateCaptures (s : List Char) : Option (List Char × List Char × List Char) :=
  if s.length = 8 && s.all isDigitC then
    some (s.take 4, (s.drop 4).take 2, s.drop 6)
  else none

/-- `DATETIME_RE = ^(\d{4})(\d{2})(\d{2})(\d{2})(\d{2})(\d{2})$`. -/
def datetimeCaptures (s : List Char) :
    Option (List Char × List Char × List Char × List Char × List Char × List Char) :=
  if s.length = 14 && s.all isDigitC then
    some (s.take 4, (s.drop 4).take 2, (s.drop 6).take 2,
          (s.drop 8).take 2, (s.drop 10).take 2, s.drop 12)
  else none

/-- `TIME_RE = ^(\d{2})(\d{2})(\d{2})$`. -/
def timeCaptures (s : List Char) : Option (List Char × List Char × List Char) :=
  if s.length = 6 && s.all isDigitC then
    some (s.take 2, (s.drop 2).take 2, s.drop 4)
  else none

/-- `Vec::iter().position(|e| e == v)`: index of the first equal element. -/
def position (v : List Char) : List (List Char) → Option Nat
  | [] => none
  | e :: rest => if e = v then some 0 else (position v rest).map (· + 1)

/-- `CsvxColumnType::validate_value` (`src/lib.rs:251`). -/
def CsvxColumnType.validate_value (ct : CsvxColumnType) (s : List Char) :
    Except ValueError (Option Value) :=
  if s = [] then
    if ct.constraints.nullable then .ok none else .error .nonNullable
  else
    match ct.ty with
    | .string => .ok (some (.string s))
    | .bool =>
      if s = str "TRUE" then .ok (some (.bool true))
      else if s = str "FALSE" then .ok (some (.bool false))
      else .error (.invalidBool s)
    | .integer =>
      match parseI64 s with
      | some v => .ok (some (.integer v))
      | none => .error (.invalidInt s)
    | .enum variants =>
      match position s variants with
      | some p => .ok (some (.enum p))
      | none => .error (.invalidEnum s variants)
    | .decimal =>
      if decimalMatch s then .ok (some (.decimal s)) else .error (.invalidDecimal s)
    | .date =>
      match dateCaptures s with
      | some (ys, ms, ds) =>
        match NaiveDate.from_ymd_opt (Int.ofNat (digitsVal ys)) (digitsVal ms) (digitsVal ds) with
        | some d => .ok (some (.date d))
        | none => .error (.invalidDate s)
      | none => .error (.invalidDate s)
    | .dateTime =>
      match datetimeCaptures s with
      | some (ys, ms, ds, hs, mis, ss) =>
        match NaiveDate.from_ymd_opt (Int.ofNat (digitsVal ys)) (digitsVal ms) (digitsVal ds) with
        | some d =>
          match d.and_hms_opt (digitsVal hs) (digitsVal mis) (digitsVal ss) with
          | some dt => .ok (some (.dateTime dt))
          | none => .error (.invalidTime s)
        | none => .error (.invalidDate s)
      | none => .error (.invalidDateTime s)
    | .time =>
      match timeCaptures s with
      | some (hs, ms, ss) =>
        match NaiveTime.from_hms_opt (digitsVal hs) (digitsVal ms) (digitsVal ss) with
        | some t => .ok (some (.time t))
        | none => .error (.invalidTime s)
      | none => .error (.invalidTime s)

/-! ## Constraint parsing (`ColumnConstraints::try_from`)

The regex in the source is `CONSTRAINT_RE = ^(:?[A-Z]+,?)*$` — note the group
opener `(:?`, which is a *capturing* group beginning with an optional literal
colon (the other regexes in `src/regexes.rs` use the non-capturing `(?:`).
The matcher below translates the source regex as written: zero or more blocks,
each an optional `:`, then one or more `[A-Z]`, then an optional `,`. -/

mutual

def crMatch : List Char → Bool
  | [] => true
  | ':' :: rest => crRun rest
  | c :: rest => isUpperAZ c && crTail rest

/-- After a colon: at least one uppercase letter must follow. -/
def crRun : List Char → Bool
  | [] => false
  | c :: rest => isUpperAZ c && crTail rest

/-- Inside an uppercase run: more uppercase, a block-ending comma, or a colon
starting the next block. -/
def crTail : List Char → Bool
  | [] => true
  | ',' :: rest => crMatch rest
  | ':' :: rest => crRun rest
  | c :: rest => isUpperAZ c && crTail rest

end

/- The constraint grammar as the specification states it:
`^([A-Z]+,?)*$` (no colons).  Kept separate from `crMatch` so the two can be
compared. -/
mutual

def specConstraintMatch : List Char → Bool
  | [] => true
  | c :: rest => isUpperAZ c && specConstraintTail rest

def specConstraintTail : List Char → Bool
  | [] => true
  | ',' :: rest => specConstraintMatch rest
  | c :: rest => isUpperAZ c && specConstraintTail rest

end

/-- Rust's `str::split(',')`: always returns at least one fragment; `""`
splits to `[""]` and a trailing separator yields a trailing empty fragment. -/
def splitComma : List Char → List (List Char)
  | [] => [[]]
  | c :: rest =>
    if c = ',' then [] :: splitComma rest
    else
      match splitComma rest with
      | g :: gs => (c :: g) :: gs
      | [] => [[c]]

/-- The fragment loop of `ColumnConstraints::try_from`: each fragment must be
`NULLABLE` or `UNIQUE`; an unknown fragment aborts with the entire original
string. -/
def applyFragments (orig : List Char) (ccs : ColumnConstraints) :
    List (List Char) → Except ColumnConstraintsError ColumnConstraints
  | [] => .ok ccs
  | f :: rest =>
    if f = str "NULLABLE" then applyFragments orig { ccs with nullable := true } rest
    else if f = str "UNIQUE" then applyFragments orig { ccs with unique := true } rest
    else .error (.unknownConstraint orig)

/-- `impl TryFrom<S> for ColumnConstraints` (`src/lib.rs:99`). -/
def ColumnConstraints.try_from (s : List Char) : Except ColumnConstraintsError ColumnConstraints :=
  if !crMatch s then .error (.malformedConstraints s)
  else if s = [] then .ok ⟨false, false⟩
  else applyFragments s ⟨false, false⟩ (splitComma s)

/-! ## Type parsing (`ColumnType::try_from`)

`ENUM_EXPR_RE = ^ENUM.*\(((?:[A-Z][A-Z0-9]*,?)*)\)$`.  The capture group's
language contains neither `(` nor `)`, and `\)` must be the final character,
so a matching decomposition is forced to split at the *last* `(` of the
string; the greedy `.*` (which cannot cross a newline) covers everything
between the `ENUM` prefix and that parenthesis. -/

mutual

def tlMatch : List Char → Bool
  | [] => true
  | c :: rest => isUpperAZ c && tlTail rest

def tlTail : List Char → Bool
  | [] => true
  | c :: rest => if c = ',' then tlMatch rest else (isUpperAZ c || isDigitC c) && tlTail rest

end

/-- Split a string at its last `(`: `splitLastParen l = some (a, b)` when
`l = a ++ '(' :: b` and `b` contains no `(`. -/
def splitLastParen : List Char → Option (List Char × List Char)
  | [] => none
  | c :: rest =>
    match splitLastParen rest with
    | some (a, b) => some (c :: a, b)
    | none => if c = '(' then some ([], rest) else none

/-- `ENUM_EXPR_RE.captures(s)`, returning capture group 1 when the regex
matches. -/
def enumCapture (s : List Char) : Option (List Char) :=
  if (str "ENUM").isPrefixOf s then
    match splitLastParen s with
    | some (pre, post) =>
      if post.getLast? = some ')' then
        let g := post.dropLast
        if tlMatch g && (pre.drop 4).all (· ≠ '\n') then some g else none
      else none
    | none => none
  else none

/-- `impl TryFrom<S> for ColumnType` (`src/lib.rs:139`). -/
def ColumnType.try_from (s : List Char) : Except ColumnTypeError ColumnType :=
  if s = str "STRING" then .ok .string
  else if s = str "BOOL" then .ok .bool
  else if s = str "INTEGER" then .ok .integer
  else if s = str "DECIMAL" then .ok .decimal
  else if s = str "DATE" then .ok .date
  else if s = str "DATETIME" then .ok .dateTime
  else if s = str "TIME" then .ok .time
  else
    match enumCapture s with
    | some g => .ok (.enum (splitComma g))
    | none =>
      if (str "ENUM").isPrefixOf s then .error (.badEnum s)
      else .error (.unknownType s)

/-! ## Filename parsing (`parse_filename`)

`FN_RE = ^([a-z][a-z0-9-]*)_(\d{4})(\d{2})(\d{2})_([a-z][a-z0-9-]*).csv$` —
note the *unescaped* dot before `csv`: it matches any character other than a
newline.  The grammar is deterministic: `_` does not belong to the identifier
character class, the digit groups are fixed-width, and the tail decomposes as
`group5 ++ [wildcard] ++ "csv"` with all lengths forced. -/

def isTblChar (c : Char) : Bool := isLowerAZ c || isDigitC c || c = '-'

/-- The five capture groups of `FN_RE`, if the regex matches. -/
def fnCaptures (s : List Char) :
    Option (List Char × List Char × List Char × List Char × List Char) :=
  match s with
  | [] => none
  | c :: _ =>
    if !isLowerAZ c then none
    else
      let t := s.takeWhile isTblChar
      let rest := s.dropWhile isTblChar
      match rest with
      | '_' :: r1 =>
        if (r1.take 8).length = 8 && (r1.take 8).all isDigitC then
          match r1.drop 8 with
          | '_' :: tail2 =>
            let n := tail2.length
            if n ≥ 5 && tail2.drop (n - 3) = str "csv" then
              let g5 := tail2.take (n - 4)
              let w := tail2.drop (n - 4)
              match g5, w with
              | c5 :: _, wc :: _ =>
                if isLowerAZ c5 && (g5.drop 1).all isTblChar && wc ≠ '\n' then
                  some (t, r1.take 4, (r1.drop 4).take 2, (r1.drop 6).take 2, g5)
                else none
              | _, _ => none
            else none
          | _ => none
        else none
      | _ => none

/-- `parse_filename` (`src/lib.rs:584`). -/
def parse_filename (s : List Char) : Option CsvxMetadata :=
  match fnCaptures s with
  | some (t, ys, ms, ds, sch) =>
    match NaiveDate.from_ymd_opt (Int.ofNat (digitsVal ys)) (digitsVal ms) (digitsVal ds) with
    | some d => some ⟨t, d, sch⟩
    | none => none
  | none => none

/-! ## Schema loading (`CsvxSchema::from_string`)

The csv layer decodes each schema record into a four-string tuple; the input
is modelled as the list of those decoded records (csv-layer decoding failures
are outside the model). -/

/-- `IDENT_UNDERSCORE_RE = ^[a-z][a-z0-9_]*$`. -/
def identMatch : List Char → Bool
  | [] => false
  | c :: rest => isLowerAZ c && rest.all (fun d => isLowerAZ d || isDigitC d || d = '_')

structure CsvxSchema where
  columns : List CsvxColumnType
deriving DecidableEq, Repr

/-- One decoded schema record: `(id, type, constraints, description)`. -/
def SchemaRow : Type := List Char × List Char × List Char × List Char

/-- The body of the schema loader's row loop for a single record at line
`lineno`: identifier check, then type parse, then constraint parse, in the
source's order and with the source's error locations. -/
def checkRow (filename : List Char) (lineno : Nat) (row : SchemaRow) :
    Except (ErrorAtLocation SchemaLoadError Location) CsvxColumnType :=
  if !identMatch row.1 then
    .error ⟨.badIdentifier row.1, .fileLineField filename lineno 1⟩
  else
    match ColumnType.try_from row.2.1 with
    | .error e => .error ⟨.badType e, .fileLineField filename lineno 1⟩
    | .ok colTy =>
      match ColumnConstraints.try_from row.2.2.1 with
      | .error e => .error ⟨.badConstraints e, .fileLine filename lineno⟩
      | .ok cc => .ok ⟨row.1, colTy, cc, row.2.2.2⟩

/-- The row loop of `from_string`: `lineno = recno + 2`, first failure aborts,
columns are pushed in record order. -/
def loadColumns (filename : List Char) (lineno : Nat) :
    List SchemaRow → Except (ErrorAtLocation SchemaLoadError Location) (List CsvxColumnType)
  | [] => .ok []
  | row :: rest =>
    match checkRow filename lineno row with
    | .error e => .error e
    | .ok col => (loadColumns filename (lineno + 1) rest).map (col :: ·)

/-- `CsvxSchema::from_string` (`src/lib.rs:371`), over decoded records. -/
def CsvxSchema.from_string (records : List SchemaRow) (filename : List Char) :
    Except (ErrorAtLocation SchemaLoadError Location) CsvxSchema :=
  match records with
  | [] => .error ⟨.missingHeader, .fileLine filename 1⟩
  | hdr :: rest =>
    if hdr.1 = str "id" ∧ hdr.2.1 = str "type" ∧ hdr.2.2.1 = str "constraints" ∧
        hdr.2.2.2 = str "description" then
      (loadColumns filename 2 rest).map CsvxSchema.mk
    else
      .error ⟨.badHeader, .fileLine filename 1⟩

/-! ## File validation (`CsvxSchema::validate_file`, `parse_row`)

A data file is modelled as the list of decoded records (each a list of
fields); the first record is the header row, exactly as the csv reader with
`has_headers(true)` presents it.  Row-level csv decoding failures (step 4 of
the spec) are outside the model. -/

/-- The header-comparison loop: one `HeaderMismatch` per mismatching position,
located at line 1, field `idx + 1`. -/
def headerErrors (filename : List Char) (idx : Nat) :
    List (CsvxColumnType × List Char) → List (ErrorAtLocation ValidationError Location)
  | [] => []
  | (spec, actual) :: rest =>
    if spec.id ≠ actual then
      ⟨.headerMismatch actual, .fileLineField filename 1 (idx + 1)⟩ :: headerErrors filename (idx + 1) rest
    else headerErrors filename (idx + 1) rest

/-- The cell loop for one data row: `columns.zip(fields)` enumerated, each
failing cell appended at `(lineno, idx + 1)`, scanning continuing past
failures. -/
def cellErrors (filename : List Char) (lineno idx : Nat) :
    List (CsvxColumnType × List Char) → List (ErrorAtLocation ValidationError Location)
  | [] => []
  | (col, value) :: rest =>
    match col.validate_value value with
    | .error e =>
      ⟨.valueError e, .fileLineField filename lineno (idx + 1)⟩ :: cellErrors filename lineno (idx + 1) rest
    | .ok _ => cellErrors filename lineno (idx + 1) rest

/-- The cell errors of one data row, in field order. -/
def rowCellErrors (cols : List CsvxColumnType) (filename : List Char) (lineno : Nat)
    (fields : List (List Char)) : List (ErrorAtLocation ValidationError Location) :=
  cellErrors filename lineno 0 (cols.zip fields)

/-- The data-row loop: line numbers `rowid + 2`, errors accumulated across the
whole file. -/
def scanRows (cols : List CsvxColumnType) (filename : List Char) (lineno : Nat) :
    List (List (List Char)) → List (ErrorAtLocation ValidationError Location)
  | [] => []
  | row :: rest => rowCellErrors cols filename lineno row ++ scanRows cols filename (lineno + 1) rest

/-- `CsvxSchema::validate_file` (`src/lib.rs:458`), over decoded records. -/
def CsvxSchema.validate_file (schema : CsvxSchema) (filename : List Char)
    (records : List (List (List Char))) :
    Except (List (ErrorAtLocation ValidationError Location)) Unit :=
  let headers := records.headD []
  let rows := records.tail
  if headers.length ≠ schema.columns.length then
    .error [⟨.missingHeaders, .fileLine filename 1⟩]
  else
    let headerErrs := headerErrors filename 0 (schema.columns.zip headers)
    if headerErrs ≠ [] then .error headerErrs
    else
      let errs := scanRows schema.columns filename 2 rows
      if errs ≠ [] then .error errs else .ok ()

/-- The loop of `parse_row`: fail-fast on the first bad cell, error located at
the 1-based field index. -/
def parseRowAux : Nat → List (CsvxColumnType × List Char) →
    Except (ErrorAtLocation ValidationError Nat) (List (Option Value))
  | _, [] => .ok []
  | idx, (col, value) :: rest =>
    match col.validate_value value with
    | .error e => .error ⟨.valueError e, idx + 1⟩
    | .ok v => (parseRowAux (idx + 1) rest).map (v :: ·)

/-- `CsvxSchema::parse_row` (`src/lib.rs:526`). -/
def CsvxSchema.parse_row (schema : CsvxSchema) (fields : List (List Char)) :
    Except (ErrorAtLocation ValidationError Nat) (List (Option Value)) :=
  parseRowAux 0 (schema.columns.zip fields)

/-! ## Specification-side definitions

These definitions restate claim-side grammars and value denotations
independently of the operational parsers above, so that the theorems relate
the two. -/

/-- A well-formed enum variant token per the data model: `[A-Z][A-Z0-9]*`. -/
def enumTokenOk : List Char → Bool
  | [] => false
  | c :: cs => isUpperAZ c && cs.all (fun d => isUpperAZ d || isDigitC d)

/-- A `ColumnType` that satisfies the data model's invariant (§3 of the spec:
enum variant lists are non-empty lists of uppercase alphanumeric tokens);
non-enum types carry no invariant. -/
def ColumnType.specWellFormed : ColumnType → Bool
  | .enum vs => !vs.isEmpty && vs.all enumTokenOk
  | _ => true

/-- Positional (most-significant-first) value of a digit string, written
without an accumulator so that it is independent of `digitsAcc`. -/
def decVal : List Char → Nat
  | [] => 0
  | c :: cs => (c.toNat - 48) * 10 ^ cs.length + decVal cs

/-- `raw` denotes the integer `v` under the claim's decimal grammar, amended
with the optional leading `+`: an optional sign followed by one or more
decimal digits. -/
def intDenotes (raw : List Char) (v : Int) : Prop :=
  ∃ ds : List Char, ds ≠ [] ∧ (∀ c ∈ ds, isDigitC c = true) ∧
    ((raw = ds ∧ v = Int.ofNat (decVal ds)) ∨
     (raw = '+' :: ds ∧ v = Int.ofNat (decVal ds)) ∨
     (raw = '-' :: ds ∧ v = -(Int.ofNat (decVal ds))))

/-- The error of an `Except`, if any. -/
def exErr {ε α : Type} : Except ε α → Option ε
  | .error e => some e
  | .ok _ => none

/-- The column specification a good schema row denotes (the defaults are
irrelevant: they are only reached on rows `checkRow` rejects). -/
def colSpecOf (row : SchemaRow) : CsvxColumnType :=
  ⟨row.1, (ColumnType.try_from row.2.1).toOption.getD .string,
    (ColumnConstraints.try_from row.2.2.1).toOption.getD ⟨false, false⟩, row.2.2.2⟩

/-- The schema-file header row. -/
def schemaHeaderRow : SchemaRow :=
  (str "id", str "type", str "constraints", str "description")

/-! ## Concrete fixtures used by witnesses and counterexamples -/

def dtCol : CsvxColumnType := ⟨str "when", .dateTime, ⟨false, false⟩, []⟩

def intCol : CsvxColumnType := ⟨str "n", .integer, ⟨false, false⟩, []⟩

def ageCol : CsvxColumnType := ⟨str "age", .integer, ⟨true, false⟩, str "age in years"⟩

def ageSchema : CsvxSchema := ⟨[ageCol]⟩

/-! # Theorems -/

/-- C9: for every column specification and the empty raw string,
`validate_value` returns `Ok(None)` when the constraints have `nullable` true
and fails with `NonNullable` when it is false, regardless of the column's type
and before any type-specific parsing. -/
theorem claim_c9 (ct : CsvxColumnType) :
    ct.validate_value [] =
      (if ct.constraints.nullable then .ok none else .error .nonNullable) := by
  by_cases h : ct.constraints.nullable <;> simp [CsvxColumnType.validate_value, h]

/-- C7: whenever the header row's field count differs from the schema's column
count, `validate_file` returns exactly one `MissingHeaders` error at line 1,
independently of the header's contents and of all data rows. -/
theorem claim_c7 (schema : CsvxSchema) (filename : List Char)
    (header : List (List Char)) (rows : List (List (List Char)))
    (h : header.length ≠ schema.columns.length) :
    schema.validate_file filename (header :: rows) =
      .error [⟨.missingHeaders, .fileLine filename 1⟩] := by
  simp [CsvxSchema.validate_file, h]

/-- Witness for C7 at a concrete schema and a header with the wrong field
count. -/
theorem claim_c7_witness :
    ([] : List (List Char)).length ≠ ageSchema.columns.length ∧
    ageSchema.validate_file (str "d.csv") [[]] =
      .error [⟨.missingHeaders, .fileLine (str "d.csv") 1⟩] :=
  ⟨by decide, claim_c7 ageSchema (str "d.csv") [] [] (by decide)⟩

/-- C3 (code bug): the string `":A"` is outside the claimed constraint grammar
`^([A-Z]+,?)*$`, yet `ColumnConstraints::try_from` does not report
`MalformedConstraints(":A")` — the source regex `^(:?[A-Z]+,?)*$` (a typo for
the non-capturing `(?:`) admits the colon, and the fragment loop then reports
`UnknownConstraint(":A")`. -/
theorem claim_c3 :
    ColumnConstraints.try_from (str ":A") = .error (.unknownConstraint (str ":A")) ∧
    specConstraintMatch (str ":A") = false ∧
    ColumnConstraints.try_from (str ":A") ≠ .error (.malformedConstraints (str ":A")) := by
  refine ⟨by decide, by decide, ?_⟩
  decide

/-- C4 (code bug): `"a_20170101_bzcsv"` does not end with the literal suffix
`".csv"`, so the claim requires `parse_filename` to return `None`; the source
regex's unescaped dot (`.csv$` instead of `\.csv$`) lets the `z` match, and
the function returns metadata with schema name `"b"`. -/
theorem claim_c4 :
    parse_filename (str "a_20170101_bzcsv") =
      some ⟨str "a", ⟨2017, 1, 1⟩, str "b"⟩ ∧
    (str ".csv").isSuffixOf (str "a_20170101_bzcsv") = false := by
  refine ⟨by decide, by decide⟩

/-- C2 (counterexample): `"20170231120000"` matches the fourteen-digit
grammar but Feb 31 is not a calendar date; `validate_value` on a DateTime
column fails with `InvalidDate`, not `InvalidDateTime` as the claim states. -/
theorem claim_c2_counterexample :
    dtCol.validate_value (str "20170231120000") =
      .error (.invalidDate (str "20170231120000")) ∧
    dtCol.validate_value (str "20170231120000") ≠
      .error (.invalidDateTime (str "20170231120000")) := by
  refine ⟨by decide, by decide⟩

/-- C2 (amended): for every DateTime column and every raw cell matching the
fourteen-digit grammar whose date portion is not a valid calendar date,
`validate_value` fails with `InvalidDate` carrying the raw string (this is the
error actually reported at this boundary; `InvalidDateTime` is reserved for
strings that fail the fourteen-digit grammar). -/
theorem claim_c2 (ct : CsvxColumnType) (raw : List Char)
    (hty : ct.ty = .dateTime)
    (hlen : raw.length = 14) (hdig : raw.all isDigitC = true)
    (hbad : NaiveDate.from_ymd_opt (Int.ofNat (digitsVal (raw.take 4)))
      (digitsVal ((raw.drop 4).take 2)) (digitsVal ((raw.drop 6).take 2)) = none) :
    ct.validate_value raw = .error (.invalidDate raw) := by
  have hne : raw ≠ [] := by
    intro h
    rw [h] at hlen
    exact absurd hlen (by decide)
  unfold CsvxColumnType.validate_value
  rw [if_neg hne, hty]
  simp [datetimeCaptures, hlen, hdig]
  rw [Int.ofNat_eq_natCast] at hbad
  rw [hbad]

/-- Witness for C2's amended theorem at the concrete input
`"20170231120000"`. -/
theorem claim_c2_witness :
    dtCol.ty = .dateTime ∧
    (str "20170231120000").length = 14 ∧
    (str "20170231120000").all isDigitC = true ∧
    NaiveDate.from_ymd_opt (Int.ofNat (digitsVal ((str "20170231120000").take 4)))
      (digitsVal (((str "20170231120000").drop 4).take 2))
      (digitsVal (((str "20170231120000").drop 6).take 2)) = none ∧
    dtCol.validate_value (str "20170231120000") =
      .error (.invalidDate (str "20170231120000")) :=
  ⟨rfl, by decide, by decide, by decide,
    claim_c2 dtCol (str "20170231120000") rfl (by decide) (by decide) (by decide)⟩

/-- Comparing a header that repeats the schema's own column identifiers
produces no mismatch. -/
theorem headerErrors_self (filename : List Char) :
    ∀ (idx : Nat) (cols : List CsvxColumnType),
      headerErrors filename idx (cols.zip (cols.map (fun c => c.id))) = []
  | _, [] => rfl
  | idx, c :: cs => by
    have ih := headerErrors_self filename (idx + 1) cs
    simp only [List.map_cons, List.zip_cons_cons, headerErrors]
    rw [if_neg (by simp)]
    exact ih

/-- The data-row loop accumulates, in file-scan order, exactly the cell errors
of each row paired with its line number. -/
theorem scanRows_flatMap (cols : List CsvxColumnType) (filename : List Char) :
    ∀ (k : Nat) (rows : List (List (List Char))),
      scanRows cols filename k rows =
        (rows.enumFrom k).flatMap (fun p => rowCellErrors cols filename p.1 p.2)
  | _, [] => rfl
  | k, r :: rest => by
    simp [scanRows, List.enumFrom, scanRows_flatMap cols filename (k + 1) rest]

/-- C1: for every schema and every data file whose header matches the schema,
`validate_file` collects the per-cell validation errors of every data row
(each located at its 1-based line number, the header being line 1, and its
1-based field index) in file-scan order, returns `Ok(())` exactly when that
list is empty, and otherwise returns all collected errors. -/
theorem claim_c1 (schema : CsvxSchema) (filename : List Char)
    (rows : List (List (List Char))) :
    schema.validate_file filename ((schema.columns.map (fun c => c.id)) :: rows) =
      (if (rows.enumFrom 2).flatMap (fun p => rowCellErrors schema.columns filename p.1 p.2) = [] then
        .ok ()
      else
        .error ((rows.enumFrom 2).flatMap (fun p => rowCellErrors schema.columns filename p.1 p.2))) := by
  unfold CsvxSchema.validate_file
  simp only [List.headD_cons, List.tail_cons, List.length_map, ne_eq, not_true_eq_false,
    if_false, headerErrors_self, scanRows_flatMap]
  by_cases h : (rows.enumFrom 2).flatMap (fun p => rowCellErrors schema.columns filename p.1 p.2) = [] <;>
    simp [h]

/-- A schema row that `checkRow` accepts denotes exactly the column
specification built from its four fields. -/
theorem checkRow_ok (filename : List Char) (lineno : Nat) (row : SchemaRow)
    (col : CsvxColumnType) (h : checkRow filename lineno row = .ok col) :
    col = colSpecOf row := by
  unfold checkRow at h
  by_cases hid : identMatch row.1
  · rw [if_neg (by simp [hid])] at h
    cases hty : ColumnType.try_from row.2.1 with
    | error e => rw [hty] at h; exact absurd h (by simp)
    | ok t =>
      rw [hty] at h
      cases hcs : ColumnConstraints.try_from row.2.2.1 with
      | error e => rw [hcs] at h; exact absurd h (by simp)
      | ok cc =>
        rw [hcs] at h
        cases h
        simp [colSpecOf, hty, hcs, Except.toOption]
  · rw [if_pos (by simp [hid])] at h
    exact absurd h (by simp)

/-- The schema row loop is fail-fast: it returns the error of the first
defective row (rows paired with their line numbers, starting at 2), and on an
input with no defective rows it returns the columns in row order. -/
theorem loadColumns_spec (filename : List Char) :
    ∀ (k : Nat) (rows : List SchemaRow),
      loadColumns filename k rows =
        (match (rows.enumFrom k).findSome? (fun p => exErr (checkRow filename p.1 p.2)) with
         | some e => .error e
         | none => .ok (rows.map colSpecOf))
  | _, [] => rfl
  | k, row :: rest => by
    have ih := loadColumns_spec filename (k + 1) rest
    cases hc : checkRow filename k row with
    | error e =>
      have hsome : exErr (checkRow filename k row) = some e := by rw [hc]; rfl
      simp only [loadColumns, hc, List.enumFrom, List.findSome?_cons, hsome, List.map_cons]
      rfl
    | ok col =>
      have hcol := checkRow_ok filename k row col hc
      have hnone : exErr (checkRow filename k row) = none := by rw [hc]; rfl
      simp only [loadColumns, hc, List.enumFrom, List.findSome?_cons, hnone, List.map_cons]
      rw [ih, hcol]
      cases hfs : (rest.enumFrom (k + 1)).findSome? (fun p => exErr (checkRow filename p.1 p.2)) with
      | some e => simp only [hfs]; rfl
      | none => simp only [hfs]; rfl

/-- C8: the schema loader is fail-fast.  For every input whose header row is
correct, the result is the single located error of the first defective row
(bad identifier, bad type, or bad constraints, rows considered in input
order), with no partial schema and no later defects collected; when no row is
defective, the resulting schema's column order equals the row order of the
input. -/
theorem claim_c8 (filename : List Char) (rows : List SchemaRow) :
    CsvxSchema.from_string (schemaHeaderRow :: rows) filename =
      (match (rows.enumFrom 2).findSome? (fun p => exErr (checkRow filename p.1 p.2)) with
       | some e => .error e
       | none => .ok ⟨rows.map colSpecOf⟩) := by
  simp only [CsvxSchema.from_string]
  rw [if_pos ⟨rfl, rfl, rfl, rfl⟩]
  rw [loadColumns_spec filename 2 rows]
  cases hfs : (rows.enumFrom 2).findSome? (fun p => exErr (checkRow filename p.1 p.2)) with
  | some e => simp [hfs, Except.map]
  | none => simp [hfs, Except.map]

/-- Truncating the right list of a zip to the left list's length changes
nothing. -/
theorem zipTakeRight {α β : Type} : ∀ (l : List α) (r : List β),
    l.zip (r.take l.length) = l.zip r
  | [], _ => by simp
  | _ :: _, [] => by simp
  | a :: l, b :: r => by simp [zipTakeRight l r]

/-- Truncating the left list of a zip to the right list's length changes
nothing. -/
theorem zipTakeLeft {α β : Type} : ∀ (l : List α) (r : List β),
    (l.take r.length).zip r = l.zip r
  | [], _ => by simp
  | _ :: _, [] => by simp
  | a :: l, b :: r => by simp [zipTakeLeft l r]

/-- The cell loop reports no error exactly when every positional
column/field pair validates. -/
theorem cellErrors_nil_iff (filename : List Char) (lineno : Nat) :
    ∀ (idx : Nat) (ps : List (CsvxColumnType × List Char)),
      cellErrors filename lineno idx ps = [] ↔
        ∀ p ∈ ps, (p.1.validate_value p.2).isOk = true
  | _, [] => by simp [cellErrors]
  | idx, (col, v) :: ps => by
    cases hv : col.validate_value v with
    | error e => simp [cellErrors, hv, Except.isOk, Except.toBool]
    | ok val =>
      simp [cellErrors, hv, Except.isOk, Except.toBool,
        cellErrors_nil_iff filename lineno (idx + 1) ps]

/-- C10: when a data row's field count differs from the schema's column
count, both the cell loop of `validate_file` and `parse_row` validate only the
first `min(column count, field count)` cells by positional pairing — columns
beyond a short row are skipped, extra fields beyond the schema are ignored —
and the length mismatch itself produces no error: the cell loop reports
nothing exactly when every paired cell validates. -/
theorem claim_c10 (schema : CsvxSchema) (filename : List Char) (lineno : Nat)
    (fields : List (List Char)) :
    rowCellErrors schema.columns filename lineno fields =
        rowCellErrors schema.columns filename lineno (fields.take schema.columns.length) ∧
    rowCellErrors schema.columns filename lineno fields =
        rowCellErrors (schema.columns.take fields.length) filename lineno fields ∧
    schema.parse_row fields = schema.parse_row (fields.take schema.columns.length) ∧
    schema.parse_row fields = CsvxSchema.parse_row ⟨schema.columns.take fields.length⟩ fields ∧
    (rowCellErrors schema.columns filename lineno fields = [] ↔
      ∀ p ∈ schema.columns.zip fields, (p.1.validate_value p.2).isOk = true) := by
  refine ⟨?_, ?_, ?_, ?_, ?_⟩
  · unfold rowCellErrors
    rw [zipTakeRight]
  · unfold rowCellErrors
    rw [zipTakeLeft]
  · unfold CsvxSchema.parse_row
    rw [zipTakeRight]
  · unfold CsvxSchema.parse_row
    rw [zipTakeLeft]
  · unfold rowCellErrors
    exact cellErrors_nil_iff filename lineno 0 (schema.columns.zip fields)

theorem cons_ne_cons_of_head {a b : Char} {l1 l2 : List Char} (h : a ≠ b) :
    a :: l1 ≠ b :: l2 := by
  intro he
  injection he with h1 _
  exact h h1

/-- Every character of a well-formed enum token is an uppercase letter or a
digit. -/
theorem enumTokenOk_chars {v : List Char} (h : enumTokenOk v = true) :
    ∀ c ∈ v, (isUpperAZ c || isDigitC c) = true := by
  cases v with
  | nil => exact absurd h (by decide)
  | cons c cs =>
    simp only [enumTokenOk, Bool.and_eq_true, List.all_eq_true] at h
    intro d hd
    rcases List.mem_cons.mp hd with heq | hmem
    · subst heq
      simp [h.1]
    · exact h.2 d hmem

theorem charClass_excludes {c x : Char} (h : (isUpperAZ c || isDigitC c) = true)
    (hx : (isUpperAZ x || isDigitC x) = false) : c ≠ x := by
  intro he
  rw [he, hx] at h
  exact absurd h (by decide)

/-- Splitting at the last `(` fails on a string without one. -/
theorem splitLastParen_none : ∀ (l : List Char), '(' ∉ l → splitLastParen l = none
  | [], _ => rfl
  | c :: rest, h => by
    have hr := splitLastParen_none rest (fun hm => h (List.mem_cons_of_mem c hm))
    have hc : c ≠ '(' := fun he => h (he ▸ List.mem_cons_self c rest)
    simp [splitLastParen, hr, hc]

/-- Appending to a string of token characters preserves `tlTail`. -/
theorem tlTail_append :
    ∀ (cs rest : List Char), (∀ d ∈ cs, (isUpperAZ d || isDigitC d) = true) →
      tlTail rest = true → tlTail (cs ++ rest) = true
  | [], _, _, hr => hr
  | d :: cs, rest, h, hr => by
    have hd := h d (List.mem_cons_self d cs)
    have hne : d ≠ ',' := charClass_excludes hd (by decide)
    have ih := tlTail_append cs rest (fun x hx => h x (List.mem_cons_of_mem d hx)) hr
    simp [tlTail, hne, hd, ih]

/-- A comma-join of well-formed tokens is in the language of the enum capture
group `((?:[A-Z][A-Z0-9]*,?)*)`. -/
theorem tlMatch_joinComma :
    ∀ (vs : List (List Char)), (∀ v ∈ vs, enumTokenOk v = true) →
      tlMatch (joinComma vs) = true
  | [], _ => rfl
  | [v], h => by
    have hv := h v (List.mem_cons_self v [])
    cases v with
    | nil => exact absurd hv (by decide)
    | cons c cs =>
      simp only [enumTokenOk, Bool.and_eq_true, List.all_eq_true] at hv
      have htail : tlTail (cs ++ []) = true :=
        tlTail_append cs [] (fun d hd => hv.2 d hd) rfl
      rw [List.append_nil] at htail
      simp [joinComma, tlMatch, hv.1, htail]
  | v :: v' :: vs, h => by
    have hv := h v (List.mem_cons_self v _)
    have ih := tlMatch_joinComma (v' :: vs) (fun x hx => h x (List.mem_cons_of_mem v hx))
    cases v with
    | nil => exact absurd hv (by decide)
    | cons c cs =>
      simp only [enumTokenOk, Bool.and_eq_true, List.all_eq_true] at hv
      have hcomma : tlTail (',' :: joinComma (v' :: vs)) = true := by
        simp [tlTail, ih]
      have htail := tlTail_append cs (',' :: joinComma (v' :: vs)) (fun d hd => hv.2 d hd) hcomma
      simp [joinComma, tlMatch, hv.1, htail]

/-- `split(',')` of a comma-free string is that string alone. -/
theorem splitComma_no_comma : ∀ (l : List Char), ',' ∉ l → splitComma l = [l]
  | [], _ => rfl
  | c :: rest, h => by
    have hr := splitComma_no_comma rest (fun hm => h (List.mem_cons_of_mem c hm))
    have hc : c ≠ ',' := fun he => h (he ▸ List.mem_cons_self c rest)
    simp [splitComma, hc, hr]

/-- `split(',')` peels a comma-free prefix up to the first comma. -/
theorem splitComma_append : ∀ (v rest : List Char), ',' ∉ v →
    splitComma (v ++ ',' :: rest) = v :: splitComma rest
  | [], rest, _ => by simp [splitComma]
  | c :: v, rest, h => by
    have hv := splitComma_append v rest (fun hm => h (List.mem_cons_of_mem c hm))
    have hc : c ≠ ',' := fun he => h (he ▸ List.mem_cons_self c v)
    simp [splitComma, hc, hv]

/-- `split(',')` inverts `join(",")` on non-empty lists of comma-free
fragments. -/
theorem splitComma_joinComma :
    ∀ (vs : List (List Char)), (∀ v ∈ vs, ',' ∉ v) → vs ≠ [] →
      splitComma (joinComma vs) = vs
  | [], _, hne => absurd rfl hne
  | [v], h, _ => by
    simpa [joinComma] using splitComma_no_comma v (h v (List.mem_cons_self v []))
  | v :: v' :: vs, h, _ => by
    have ih := splitComma_joinComma (v' :: vs) (fun x hx => h x (List.mem_cons_of_mem v hx))
      (by simp)
    simp only [joinComma]
    rw [splitComma_append v _ (h v (List.mem_cons_self v _)), ih]

/-- Every character of a comma-join of well-formed tokens is an uppercase
letter, a digit, or a comma. -/
theorem joinComma_chars :
    ∀ (vs : List (List Char)), (∀ v ∈ vs, enumTokenOk v = true) →
      ∀ c ∈ joinComma vs, ((isUpperAZ c || isDigitC c) = true ∨ c = ',')
  | [], _ => by simp [joinComma]
  | [v], h => by
    intro c hc
    rw [show joinComma [v] = v from rfl] at hc
    exact Or.inl (enumTokenOk_chars (h v (List.mem_cons_self v [])) c hc)
  | v :: v' :: vs, h => by
    intro c hc
    rw [show joinComma (v :: v' :: vs) = v ++ ',' :: joinComma (v' :: vs) from rfl] at hc
    rcases List.mem_append.mp hc with hcv | hcr
    · exact Or.inl (enumTokenOk_chars (h v (List.mem_cons_self v _)) c hcv)
    · rcases List.mem_cons.mp hcr with heq | hmem
      · exact Or.inr heq
      · exact joinComma_chars (v' :: vs) (fun x hx => h x (List.mem_cons_of_mem v hx)) c hmem

/-- C6: rendering a `ColumnType` that satisfies the data model's invariant
back to text and re-parsing it yields the original type. -/
theorem claim_c6 (ct : ColumnType) (h : ct.specWellFormed = true) :
    ColumnType.try_from ct.display = .ok ct := by
  cases ct with
  | enum vs =>
    simp only [ColumnType.specWellFormed, Bool.and_eq_true, List.all_eq_true] at h
    obtain ⟨hne, htok⟩ := h
    have hvsne : vs ≠ [] := by
      intro he
      rw [he] at hne
      exact absurd hne (by decide)
    have hnp : '(' ∉ (joinComma vs ++ [')']) := by
      intro hm
      rcases List.mem_append.mp hm with hmj | hmc
      · rcases joinComma_chars vs htok '(' hmj with hcl | hcm
        · exact absurd hcl (by decide)
        · exact absurd hcm (by decide)
      · rcases List.mem_cons.mp hmc with heq | habs
        · exact absurd heq (by decide)
        · exact absurd habs (by simp)
    have hsplit : splitLastParen ('E' :: 'N' :: 'U' :: 'M' :: '(' :: (joinComma vs ++ [')'])) =
        some (['E', 'N', 'U', 'M'], joinComma vs ++ [')']) := by
      simp [splitLastParen, splitLastParen_none _ hnp]
    have hcommaFree : ∀ v ∈ vs, ',' ∉ v := by
      intro v hv hm
      exact absurd (enumTokenOk_chars (htok v hv) ',' hm) (by decide)
    have hdisp : (ColumnType.enum vs).display =
        'E' :: 'N' :: 'U' :: 'M' :: '(' :: (joinComma vs ++ [')']) := rfl
    have hpre : (str "ENUM").isPrefixOf
        ('E' :: 'N' :: 'U' :: 'M' :: '(' :: (joinComma vs ++ [')'])) = true := rfl
    have hcap : enumCapture ('E' :: 'N' :: 'U' :: 'M' :: '(' :: (joinComma vs ++ [')'])) =
        some (joinComma vs) := by
      simp only [enumCapture, hsplit]
      rw [if_pos hpre, if_pos (List.getLast?_concat _), List.dropLast_concat]
      rw [if_pos (by simp [tlMatch_joinComma vs htok])]
    rw [hdisp]
    simp only [ColumnType.try_from, hcap]
    rw [show str "STRING" = 'S' :: str "TRING" from rfl,
      show str "BOOL" = 'B' :: str "OOL" from rfl,
      show str "INTEGER" = 'I' :: str "NTEGER" from rfl,
      show str "DECIMAL" = 'D' :: str "ECIMAL" from rfl,
      show str "DATE" = 'D' :: str "ATE" from rfl,
      show str "DATETIME" = 'D' :: str "ATETIME" from rfl,
      show str "TIME" = 'T' :: str "IME" from rfl]
    rw [if_neg (@cons_ne_cons_of_head 'E' 'S' _ _ (by decide)),
      if_neg (@cons_ne_cons_of_head 'E' 'B' _ _ (by decide)),
      if_neg (@cons_ne_cons_of_head 'E' 'I' _ _ (by decide)),
      if_neg (@cons_ne_cons_of_head 'E' 'D' _ _ (by decide)),
      if_neg (@cons_ne_cons_of_head 'E' 'D' _ _ (by decide)),
      if_neg (@cons_ne_cons_of_head 'E' 'D' _ _ (by decide)),
      if_neg (@cons_ne_cons_of_head 'E' 'T' _ _ (by decide))]
    rw [splitComma_joinComma vs hcommaFree hvsne]
  | string => decide
  | bool => decide
  | integer => decide
  | decimal => decide
  | date => decide
  | time => decide
  | dateTime => decide

/-- Witness for C6 at the spec's own example `Enum(["A","B"])`. -/
theorem claim_c6_witness :
    (ColumnType.enum [str "A", str "B"]).specWellFormed = true ∧
    ColumnType.try_from (ColumnType.enum [str "A", str "B"]).display =
      .ok (ColumnType.enum [str "A", str "B"]) :=
  ⟨by decide, claim_c6 (ColumnType.enum [str "A", str "B"]) (by decide)⟩

/-- The accumulator loop of the integer parser succeeds exactly on digit
strings, computing the positional value shifted by the accumulator. -/
theorem digitsAcc_some :
    ∀ (l : List Char) (acc n : Nat),
      digitsAcc acc l = some n ↔
        ((∀ c ∈ l, isDigitC c = true) ∧ n = acc * 10 ^ l.length + decVal l)
  | [], acc, n => by
    simp only [digitsAcc, decVal, List.length_nil, pow_zero, mul_one, Nat.add_zero,
      Option.some.injEq, List.not_mem_nil, false_implies, implies_true, true_and]
    exact ⟨fun h => h.symm, fun h => h.symm⟩
  | c :: cs, acc, n => by
    by_cases hc : isDigitC c = true
    · have harith : (acc * 10 + (c.toNat - 48)) * 10 ^ cs.length + decVal cs =
          acc * 10 ^ (c :: cs).length + decVal (c :: cs) := by
        simp only [decVal, List.length_cons, pow_succ]
        ring
      rw [show digitsAcc acc (c :: cs) = digitsAcc (acc * 10 + (c.toNat - 48)) cs from by
          simp [digitsAcc, hc],
        digitsAcc_some cs (acc * 10 + (c.toNat - 48)) n, harith]
      simp [hc]
    · simp [digitsAcc, hc]

/-- `parseDigitsNat` succeeds exactly on non-empty digit strings, computing
the positional decimal value. -/
theorem parseDigitsNat_some (l : List Char) (n : Nat) :
    parseDigitsNat l = some n ↔
      (l ≠ [] ∧ (∀ c ∈ l, isDigitC c = true) ∧ n = decVal l) := by
  cases l with
  | nil => simp [parseDigitsNat]
  | cons c cs =>
    rw [show parseDigitsNat (c :: cs) = digitsAcc 0 (c :: cs) from rfl,
      digitsAcc_some (c :: cs) 0 n]
    simp

/-- A successful `parseI64` yields a denotation in the signed grammar and a
value within the 64-bit range. -/
theorem parseI64_some (raw : List Char) (v : Int) (h : parseI64 raw = some v) :
    intDenotes raw v ∧ -(2 ^ 63) ≤ v ∧ v < 2 ^ 63 := by
  cases raw with
  | nil => exact absurd h (by simp [parseI64])
  | cons c cs =>
    by_cases hplus : c = '+'
    · subst hplus
      rw [show parseI64 ('+' :: cs) =
          (parseDigitsNat cs).bind
            (fun n => if n ≤ 2 ^ 63 - 1 then some (Int.ofNat n) else none) from by
          simp [parseI64]] at h
      cases hpd : parseDigitsNat cs with
      | none => rw [hpd] at h; exact absurd h (by simp)
      | some n =>
        rw [hpd, Option.some_bind] at h
        by_cases hB : n ≤ 2 ^ 63 - 1
        · rw [if_pos hB] at h
          obtain ⟨hcsne, hdig, hval⟩ := (parseDigitsNat_some cs n).mp hpd
          have hv : v = Int.ofNat n := by
            injection h with h1
            exact h1.symm
          refine ⟨⟨cs, hcsne, hdig, Or.inr (Or.inl ⟨rfl, by rw [hv, hval]⟩)⟩, ?_, ?_⟩
          · rw [hv]
            have : (0 : Int) ≤ Int.ofNat n := Int.ofNat_nonneg n
            omega
          · rw [hv]
            have hlt : n < 2 ^ 63 := by omega
            have : Int.ofNat n < Int.ofNat (2 ^ 63) := Int.ofNat_lt.mpr hlt
            simpa using this
        · rw [if_neg hB] at h
          exact absurd h (by simp)
    · by_cases hminus : c = '-'
      · subst hminus
        rw [show parseI64 ('-' :: cs) =
            (parseDigitsNat cs).bind
              (fun n => if n ≤ 2 ^ 63 then some (-(Int.ofNat n)) else none) from by
            simp [parseI64]] at h
        cases hpd : parseDigitsNat cs with
        | none => rw [hpd] at h; exact absurd h (by simp)
        | some n =>
          rw [hpd, Option.some_bind] at h
          by_cases hB : n ≤ 2 ^ 63
          · rw [if_pos hB] at h
            obtain ⟨hcsne, hdig, hval⟩ := (parseDigitsNat_some cs n).mp hpd
            have hv : v = -(Int.ofNat n) := by
              injection h with h1
              exact h1.symm
            refine ⟨⟨cs, hcsne, hdig, Or.inr (Or.inr ⟨rfl, by rw [hv, hval]⟩)⟩, ?_, ?_⟩
            · rw [hv]
              have : Int.ofNat n ≤ Int.ofNat (2 ^ 63) := Int.ofNat_le.mpr hB
              have h63 : Int.ofNat (2 ^ 63) = (2 : Int) ^ 63 := by simp
              omega
            · rw [hv]
              have : (0 : Int) ≤ Int.ofNat n := Int.ofNat_nonneg n
              have hpos : (0 : Int) < 2 ^ 63 := by norm_num
              omega
          · rw [if_neg hB] at h
            exact absurd h (by simp)
      · rw [show parseI64 (c :: cs) =
            (parseDigitsNat (c :: cs)).bind
              (fun n => if n ≤ 2 ^ 63 - 1 then some (Int.ofNat n) else none) from by
            simp [parseI64, hplus, hminus]] at h
        cases hpd : parseDigitsNat (c :: cs) with
        | none => rw [hpd] at h; exact absurd h (by simp)
        | some n =>
          rw [hpd, Option.some_bind] at h
          by_cases hB : n ≤ 2 ^ 63 - 1
          · rw [if_pos hB] at h
            obtain ⟨hcsne, hdig, hval⟩ := (parseDigitsNat_some (c :: cs) n).mp hpd
            have hv : v = Int.ofNat n := by
              injection h with h1
              exact h1.symm
            refine ⟨⟨c :: cs, hcsne, hdig, Or.inl ⟨rfl, by rw [hv, hval]⟩⟩, ?_, ?_⟩
            · rw [hv]
              have : (0 : Int) ≤ Int.ofNat n := Int.ofNat_nonneg n
              omega
            · rw [hv]
              have hlt : n < 2 ^ 63 := by omega
              have : Int.ofNat n < Int.ofNat (2 ^ 63) := Int.ofNat_lt.mpr hlt
              simpa using this
          · rw [if_neg hB] at h
            exact absurd h (by simp)

/-- A failing `parseI64` on a non-empty string means no value in the 64-bit
range is denoted by the signed grammar. -/
theorem parseI64_none (raw : List Char) (h : parseI64 raw = none) :
    ¬ ∃ v : Int, intDenotes raw v ∧ -(2 ^ 63) ≤ v ∧ v < 2 ^ 63 := by
  rintro ⟨v, ⟨ds, hdsne, hdig, hcase⟩, hlo, hhi⟩
  rcases hcase with ⟨hraw, hv⟩ | ⟨hraw, hv⟩ | ⟨hraw, hv⟩
  · subst hraw
    cases raw with
    | nil => exact hdsne rfl
    | cons c cs =>
      have hc := hdig c (List.mem_cons_self c cs)
      have hcp : c ≠ '+' := by
        intro he
        rw [he] at hc
        exact absurd hc (by decide)
      have hcm : c ≠ '-' := by
        intro he
        rw [he] at hc
        exact absurd hc (by decide)
      rw [show parseI64 (c :: cs) =
          (parseDigitsNat (c :: cs)).bind
            (fun n => if n ≤ 2 ^ 63 - 1 then some (Int.ofNat n) else none) from by
          simp [parseI64, hcp, hcm]] at h
      have hpd : parseDigitsNat (c :: cs) = some (decVal (c :: cs)) :=
        (parseDigitsNat_some _ _).mpr ⟨by simp, hdig, rfl⟩
      rw [hpd, Option.some_bind] at h
      by_cases hB : decVal (c :: cs) ≤ 2 ^ 63 - 1
      · rw [if_pos hB] at h
        exact absurd h (by simp)
      · have hge : 2 ^ 63 ≤ decVal (c :: cs) := by omega
        have hcast : Int.ofNat (2 ^ 63) ≤ Int.ofNat (decVal (c :: cs)) := Int.ofNat_le.mpr hge
        have h63 : Int.ofNat (2 ^ 63) = (2 : Int) ^ 63 := by simp
        rw [hv] at hhi
        omega
  · subst hraw
    rw [show parseI64 ('+' :: ds) =
        (parseDigitsNat ds).bind
          (fun n => if n ≤ 2 ^ 63 - 1 then some (Int.ofNat n) else none) from by
        simp [parseI64]] at h
    have hpd : parseDigitsNat ds = some (decVal ds) :=
      (parseDigitsNat_some _ _).mpr ⟨hdsne, hdig, rfl⟩
    rw [hpd, Option.some_bind] at h
    by_cases hB : decVal ds ≤ 2 ^ 63 - 1
    · rw [if_pos hB] at h
      exact absurd h (by simp)
    · have hge : 2 ^ 63 ≤ decVal ds := by omega
      have hcast : Int.ofNat (2 ^ 63) ≤ Int.ofNat (decVal ds) := Int.ofNat_le.mpr hge
      have h63 : Int.ofNat (2 ^ 63) = (2 : Int) ^ 63 := by simp
      rw [hv] at hhi
      omega
  · subst hraw
    rw [show parseI64 ('-' :: ds) =
        (parseDigitsNat ds).bind
          (fun n => if n ≤ 2 ^ 63 then some (-(Int.ofNat n)) else none) from by
        simp [parseI64]] at h
    have hpd : parseDigitsNat ds = some (decVal ds) :=
      (parseDigitsNat_some _ _).mpr ⟨hdsne, hdig, rfl⟩
    rw [hpd, Option.some_bind] at h
    by_cases hB : decVal ds ≤ 2 ^ 63
    · rw [if_pos hB] at h
      exact absurd h (by simp)
    · have hge : 2 ^ 63 + 1 ≤ decVal ds := by omega
      have hcast : Int.ofNat (2 ^ 63 + 1) ≤ Int.ofNat (decVal ds) := Int.ofNat_le.mpr hge
      have h63 : Int.ofNat (2 ^ 63 + 1) = (2 : Int) ^ 63 + 1 := by simp
      rw [hv] at hlo
      omega

/-- C5 (counterexample): `"+5"` has a leading character other than `-` and
digits, so the claim requires `InvalidInt("+5")`; Rust's `i64` parser accepts
the `+` sign and the code returns the integer 5. -/
theorem claim_c5_counterexample :
    intCol.validate_value (str "+5") = .ok (some (.integer 5)) ∧
    intCol.validate_value (str "+5") ≠ .error (.invalidInt (str "+5")) := by
  refine ⟨by decide, by decide⟩

/-- C5 (amended): for every Integer column and every non-empty raw string
(the non-nullable path), `validate_value` succeeds exactly when the raw string
consists of an optional leading `-` *or `+`* followed only by decimal digits
and denotes a value representable as a signed 64-bit integer, returning that
integer; any other content fails with `InvalidInt` carrying the raw string.
Leading zeros are not rejected (the denotation places no constraint on
them). -/
theorem claim_c5 (ct : CsvxColumnType) (raw : List Char)
    (hty : ct.ty = .integer) (hne : raw ≠ []) :
    (∃ v : Int, ct.validate_value raw = .ok (some (.integer v)) ∧ intDenotes raw v ∧
        -(2 ^ 63) ≤ v ∧ v < 2 ^ 63) ∨
    (ct.validate_value raw = .error (.invalidInt raw) ∧
      ¬ ∃ v : Int, intDenotes raw v ∧ -(2 ^ 63) ≤ v ∧ v < 2 ^ 63) := by
  have hval : ct.validate_value raw =
      (match parseI64 raw with
       | some v => .ok (some (.integer v))
       | none => .error (.invalidInt raw)) := by
    unfold CsvxColumnType.validate_value
    rw [if_neg hne, hty]
  cases hp : parseI64 raw with
  | some v =>
    obtain ⟨hden, hlo, hhi⟩ := parseI64_some raw v hp
    exact Or.inl ⟨v, by rw [hval, hp], hden, hlo, hhi⟩
  | none =>
    exact Or.inr ⟨by rw [hval, hp], parseI64_none raw hp⟩

/-- Witness for C5's amended theorem at the concrete input `"+5"`. -/
theorem claim_c5_witness :
    intCol.ty = .integer ∧ str "+5" ≠ [] ∧
    ((∃ v : Int, intCol.validate_value (str "+5") = .ok (some (.integer v)) ∧
        intDenotes (str "+5") v ∧ -(2 ^ 63) ≤ v ∧ v < 2 ^ 63) ∨
      (intCol.validate_value (str "+5") = .error (.invalidInt (str "+5")) ∧
        ¬ ∃ v : Int, intDenotes (str "+5") v ∧ -(2 ^ 63) ≤ v ∧ v < 2 ^ 63)) :=
  ⟨rfl, by decide, claim_c5 intCol (str "+5") rfl (by decide)⟩

end Csvx
